import Mathlib

/-!
# JustPlay League Manager — verification of the Scheduling & Standings Engine

Shallow embedding of the core logic of `main.py` (FastAPI backend):

* `generate_schedule` — fixture generation (`POST /api/leagues/{id}/schedule`),
* `update_result`     — result recording (`POST /api/leagues/{id}/results`),
* `standings`         — standings computation (`GET /api/leagues/{id}/standings`).

Python `int` is modelled by `Int` (scores, counters, day offsets); `datetime`
arithmetic is modelled by `Int` time measured in days, since the code only ever
adds `timedelta(days=days_between)` to a start instant; the randomly generated
match identifiers are modelled by an arbitrary identifier supply
`genId : Nat → String` indexed by the global match counter; the in-memory
store (`MOCK_LEAGUES` / `MOCK_MATCHES`) for a single league is modelled by an
explicit `LeagueState` threaded through the handlers; a Python `dict` is
modelled by an association list with Python's insertion-order/overwrite
semantics; raising `HTTPException` is modelled by `Except.error` (leaving the
state unchanged), and an uncaught `KeyError` in the standings fold is modelled
by `Option.none`.
-/

namespace JustPlay

/-- `Team` of `schemas.py` (the fields the engine reads: `id`, `name`). -/
structure Team where
  id : String
  name : String
  deriving DecidableEq, Repr

/-- `Match` of `schemas.py`. `scheduled_at` is an instant in days (`Int`),
scores are optional integers. -/
structure Match where
  id : String
  league_id : String
  round : Nat
  home_team_id : String
  away_team_id : String
  court : Option String
  scheduled_at : Int
  home_score : Option Int
  away_score : Option Int
  deriving DecidableEq, Repr

/-- The per-league mutable store: `league.teams` and `MOCK_MATCHES[league_id]`. -/
structure LeagueState where
  teams : List Team
  match_list : List Match
  deriving DecidableEq, Repr

/-! ## Schedule generation (`generate_schedule`, main.py lines 231–264) -/

/-- The inner loop `for i in range(0, len(teams), 2): if i + 1 < len(teams)`:
consecutive roster pairs (0,1), (2,3), …; an odd tail is dropped (bye). -/
def round_pairs : List Team → List (Team × Team)
  | a :: b :: rest => (a, b) :: round_pairs rest
  | _ => []

/-- One round of the generation loop: walk the pairs, emitting a `Match` per
pair and advancing the global match counter `k` and the running timestamp `w`
by `interval` per emitted match (`when = when + timedelta(days=days_between)`).
Returns the emitted matches together with the updated counter and timestamp. -/
def gen_round (lid : String) (genId : Nat → String) (r : Nat) (interval : Int) :
    List (Team × Team) → Nat → Int → List Match × Nat × Int
  | [], k, w => ([], k, w)
  | (h, a) :: ps, k, w =>
      let rest := gen_round lid genId r interval ps (k + 1) (w + interval)
      ({ id := genId k, league_id := lid, round := r,
         home_team_id := h.id, away_team_id := a.id,
         court := none, scheduled_at := w,
         home_score := none, away_score := none } :: rest.1, rest.2)

/-- The outer loop `for r in range(1, payload.rounds + 1)`, threading the
counter and timestamp across rounds. -/
def gen_rounds (lid : String) (genId : Nat → String) (pairs : List (Team × Team))
    (interval : Int) : List Nat → Nat → Int → List Match
  | [], _, _ => []
  | r :: rs, k, w =>
      let res := gen_round lid genId r interval pairs k w
      res.1 ++ gen_rounds lid genId pairs interval rs res.2.1 res.2.2

/-- The full fixture list built by `generate_schedule` once the team-count
check has passed: rounds 1..rounds (empty when `rounds ≤ 0`, since
`range(1, rounds + 1)` is empty), starting the timestamp at `start`. -/
def generate_matches (lid : String) (genId : Nat → String) (teams : List Team)
    (rounds : Int) (start interval : Int) : List Match :=
  gen_rounds lid genId (round_pairs teams) interval
    ((List.range rounds.toNat).map (· + 1)) 0 start

/-- `POST /api/leagues/{league_id}/schedule`: reject with HTTP 400 when fewer
than 2 teams (store untouched), otherwise build the fixtures and overwrite
`MOCK_MATCHES[league_id]`. `start` is the resolved start instant
(`payload.start_at or utcnow() + 1 day`). -/
def generate_schedule (lid : String) (genId : Nat → String)
    (rounds start interval : Int) (st : LeagueState) :
    Except String (List Match) × LeagueState :=
  if st.teams.length < 2 then
    (Except.error "Need at least 2 teams to schedule matches", st)
  else
    let ms := generate_matches lid genId st.teams rounds start interval
    (Except.ok ms, { st with match_list := ms })

/-! ## Result recording (`update_result`, main.py lines 278–296) -/

/-- `POST /api/leagues/{league_id}/results`: rebuild the match list, replacing
every match whose id equals `matchId` by a copy with both scores set; if no
match matched, raise 404 before storing, leaving the list unmodified. -/
def update_result (matchId : String) (hs aws : Int) (st : LeagueState) :
    Except String (List Match) × LeagueState :=
  let updated := st.match_list.map fun m =>
    if m.id = matchId then { m with home_score := some hs, away_score := some aws } else m
  if st.match_list.any fun m => m.id == matchId then
    (Except.ok updated, { st with match_list := updated })
  else
    (Except.error "Match not found", st)

/-! ## Standings (`standings`, main.py lines 302–354) -/

/-- The `Standing` response model (all counters are Python `int`s). -/
structure Standing where
  team_id : String
  team_name : String
  played : Int
  wins : Int
  losses : Int
  points_for : Int
  points_against : Int
  deriving DecidableEq, Repr

/-- The `stats` dict, as an association list in insertion order. -/
abbrev StatsDict := List (String × Standing)

/-- `stats[k] = v` on a Python dict: overwrite in place if the key exists
(keeping its original position), otherwise append at the end. -/
def dict_insert (k : String) (v : Standing) : StatsDict → StatsDict
  | [] => [(k, v)]
  | (k', v') :: rest =>
      if k = k' then (k, v) :: rest else (k', v') :: dict_insert k v rest

/-- `stats[k]` lookup; `none` models a `KeyError`. -/
def dict_find (k : String) : StatsDict → Option Standing
  | [] => none
  | (k', v') :: rest => if k = k' then some v' else dict_find k rest

/-- In-place mutation of the entry stored under `k` (Python objects are
mutated through the alias obtained from the dict lookup). -/
def dict_adjust (k : String) (f : Standing → Standing) (d : StatsDict) : StatsDict :=
  d.map fun e => if k = e.1 then (e.1, f e.2) else e

/-- The zeroed row built for each rostered team. -/
def zero_standing (t : Team) : Standing :=
  { team_id := t.id, team_name := t.name, played := 0, wins := 0, losses := 0,
    points_for := 0, points_against := 0 }

/-- `for t in league.teams: stats[t.id] = Standing(...)`. -/
def init_stats (teams : List Team) : StatsDict :=
  teams.foldl (fun d t => dict_insert t.id (zero_standing t) d) []

/-- The counter updates of one scored match, in source order: the lookups
`h = stats[home]` / `a = stats[away]` may alias, so each `+=` is an
individual read-modify-write on the dict entry. -/
def tally_match (hid aid : String) (hs aws : Int) (d : StatsDict) : StatsDict :=
  let d1 := dict_adjust hid (fun s => { s with played := s.played + 1 }) d
  let d2 := dict_adjust aid (fun s => { s with played := s.played + 1 }) d1
  let d3 := dict_adjust hid (fun s => { s with points_for := s.points_for + hs }) d2
  let d4 := dict_adjust hid (fun s => { s with points_against := s.points_against + aws }) d3
  let d5 := dict_adjust aid (fun s => { s with points_for := s.points_for + aws }) d4
  let d6 := dict_adjust aid (fun s => { s with points_against := s.points_against + hs }) d5
  if aws < hs then
    dict_adjust aid (fun s => { s with losses := s.losses + 1 })
      (dict_adjust hid (fun s => { s with wins := s.wins + 1 }) d6)
  else if hs < aws then
    dict_adjust hid (fun s => { s with losses := s.losses + 1 })
      (dict_adjust aid (fun s => { s with wins := s.wins + 1 }) d6)
  else d6

/-- One iteration of the match loop: skip a match missing a score
(`continue`), crash (`none`, a `KeyError`) if a referenced team is not in the
dict, otherwise tally the match. -/
def process_match (d : StatsDict) (m : Match) : Option StatsDict :=
  match m.home_score, m.away_score with
  | some hs, some aws =>
      match dict_find m.home_team_id d, dict_find m.away_team_id d with
      | some _, some _ => some (tally_match m.home_team_id m.away_team_id hs aws d)
      | _, _ => none
  | _, _ => some d

/-- The whole match loop, propagating a crash. -/
def process_matches (d : StatsDict) : List Match → Option StatsDict
  | [] => some d
  | m :: ms =>
      match process_match d m with
      | some d' => process_matches d' ms
      | none => none

/-- The sort key `(s.wins, s.points_for - s.points_against)`, compared
descending (`reverse=True`). -/
def standing_key (s : Standing) : Int × Int := (s.wins, s.points_for - s.points_against)

/-- `s1` may precede `s2` in the table: strictly more wins, or equal wins and
at least the point differential (descending lexicographic comparison). -/
def key_ge (s1 s2 : Standing) : Prop :=
  s2.wins < s1.wins ∨
    (s1.wins = s2.wins ∧
      s2.points_for - s2.points_against ≤ s1.points_for - s1.points_against)

instance : DecidableRel key_ge := fun s1 s2 => by unfold key_ge; infer_instance

instance : IsTotal Standing key_ge :=
  ⟨fun a b => by unfold key_ge; omega⟩

instance : IsTrans Standing key_ge :=
  ⟨fun a b c hab hbc => by unfold key_ge at *; omega⟩

/-- Python's `sorted(values, key=..., reverse=True)`: a stable descending
sort, modelled by insertion sort with the non-strict descending comparison
(equal keys keep their input order). -/
def sort_desc (l : List Standing) : List Standing := l.insertionSort key_ge

/-- `GET /api/leagues/{league_id}/standings`: zero rows for the roster, fold
over the stored matches (possibly crashing on a `KeyError`), then sort the
dict's values (in insertion order) by the ranking policy. -/
def standings (teams : List Team) (match_list : List Match) : Option (List Standing) :=
  (process_matches (init_stats teams) match_list).map fun d =>
    sort_desc (d.map Prod.snd)

/-! ## Specification-side per-team counters

These re-state §4.2 of the spec as direct sums over the match list; the
refinement theorems for C4 compare `standings` against them. -/

/-- Contribution of one match to team `tid`'s `played` counter per the spec:
a scored match counts once for its home side and once for its away side. -/
def spec_played_delta (tid : String) (m : Match) : Int :=
  match m.home_score, m.away_score with
  | some _, some _ =>
      (if m.home_team_id = tid then 1 else 0) + (if m.away_team_id = tid then 1 else 0)
  | _, _ => 0

/-- Contribution of one match to `wins`: home side on a strictly higher home
score, away side on a strictly higher away score. -/
def spec_wins_delta (tid : String) (m : Match) : Int :=
  match m.home_score, m.away_score with
  | some hs, some aws =>
      (if m.home_team_id = tid ∧ aws < hs then 1 else 0) +
        (if m.away_team_id = tid ∧ hs < aws then 1 else 0)
  | _, _ => 0

/-- Contribution of one match to `losses`: the mirror of `spec_wins_delta`. -/
def spec_losses_delta (tid : String) (m : Match) : Int :=
  match m.home_score, m.away_score with
  | some hs, some aws =>
      (if m.away_team_id = tid ∧ aws < hs then 1 else 0) +
        (if m.home_team_id = tid ∧ hs < aws then 1 else 0)
  | _, _ => 0

/-- Contribution of one match to `points_for`: own score on each side. -/
def spec_pf_delta (tid : String) (m : Match) : Int :=
  match m.home_score, m.away_score with
  | some hs, some aws =>
      (if m.home_team_id = tid then hs else 0) + (if m.away_team_id = tid then aws else 0)
  | _, _ => 0

/-- Contribution of one match to `points_against`: opponent's score. -/
def spec_pa_delta (tid : String) (m : Match) : Int :=
  match m.home_score, m.away_score with
  | some hs, some aws =>
      (if m.home_team_id = tid then aws else 0) + (if m.away_team_id = tid then hs else 0)
  | _, _ => 0

/-- The spec's row for team `tid`/`name` over a match list: zero counters
plus the summed per-match contributions. -/
def spec_row (tid name : String) (ms : List Match) : Standing :=
  { team_id := tid, team_name := name,
    played := (ms.map (spec_played_delta tid)).sum,
    wins := (ms.map (spec_wins_delta tid)).sum,
    losses := (ms.map (spec_losses_delta tid)).sum,
    points_for := (ms.map (spec_pf_delta tid)).sum,
    points_against := (ms.map (spec_pa_delta tid)).sum }

/-! ## Helper notions used by the proofs -/

/-- The keys of the `stats` dict, in insertion order. -/
def dict_keys (d : StatsDict) : List String := d.map Prod.fst

/-- The single per-entry effect of `tally_match` on the entry stored under
key `k` (returned by `tally_match_eq_map`): both sides of the match
contribute, and the contributions compound when home and away alias. -/
def tally_value (hid aid : String) (hs aws : Int) (k : String) (s : Standing) : Standing :=
  { s with
    played := s.played + ((if hid = k then 1 else 0) + (if aid = k then 1 else 0)),
    wins := s.wins + ((if hid = k ∧ aws < hs then 1 else 0) +
      (if aid = k ∧ hs < aws then 1 else 0)),
    losses := s.losses + ((if aid = k ∧ aws < hs then 1 else 0) +
      (if hid = k ∧ hs < aws then 1 else 0)),
    points_for := s.points_for + ((if hid = k then hs else 0) + (if aid = k then aws else 0)),
    points_against := s.points_against +
      ((if hid = k then aws else 0) + (if aid = k then hs else 0)) }

/-- A standing extended by the spec-side contributions of a match list. -/
def spec_add (v : Standing) (k : String) (ms : List Match) : Standing :=
  { v with
    played := v.played + (ms.map (spec_played_delta k)).sum,
    wins := v.wins + (ms.map (spec_wins_delta k)).sum,
    losses := v.losses + (ms.map (spec_losses_delta k)).sum,
    points_for := v.points_for + (ms.map (spec_pf_delta k)).sum,
    points_against := v.points_against + (ms.map (spec_pa_delta k)).sum }

/-- Sum of one numeric field over the dict's values. -/
def sum_field (f : Standing → Int) (d : StatsDict) : Int := (d.map fun e => f e.2).sum

/-- Every scored match references only rostered team identities (the
consistency invariant the standings fold relies on). -/
def scored_rostered (teams : List Team) (ms : List Match) : Prop :=
  ∀ m ∈ ms, m.home_score.isSome → m.away_score.isSome →
    m.home_team_id ∈ teams.map Team.id ∧ m.away_team_id ∈ teams.map Team.id

instance (teams : List Team) (ms : List Match) : Decidable (scored_rostered teams ms) := by
  unfold scored_rostered; infer_instance

/-! ## Operation sequences (for the store-wide score invariant) -/

/-- The store mutations that touch a league's match list or roster:
schedule generation, result recording, and the roster edits of
`add_team` / `remove_team` (main.py lines 170–192). -/
inductive Op where
  | genSchedule (lid : String) (genId : Nat → String) (rounds start interval : Int)
  | recordResult (matchId : String) (hs aws : Int)
  | addTeam (t : Team)
  | removeTeam (tid : String)

/-- Apply one operation to the per-league store, discarding the HTTP
response (errors leave the state unchanged, as in the handlers). -/
def apply_op (st : LeagueState) : Op → LeagueState
  | .genSchedule lid genId rounds start interval =>
      (generate_schedule lid genId rounds start interval st).2
  | .recordResult matchId hs aws => (update_result matchId hs aws st).2
  | .addTeam t => { st with teams := st.teams ++ [t] }
  | .removeTeam tid => { st with teams := st.teams.filter fun t => t.id ≠ tid }

/-- Apply a sequence of operations in order. -/
def apply_ops (st : LeagueState) (ops : List Op) : LeagueState := ops.foldl apply_op st

/-- The score-shape invariant: each stored match has both scores `null` or
both scores set. -/
def scores_paired (ms : List Match) : Prop :=
  ∀ m ∈ ms, (m.home_score = none ∧ m.away_score = none) ∨
    (m.home_score.isSome ∧ m.away_score.isSome)

instance (ms : List Match) : Decidable (scores_paired ms) := by
  unfold scores_paired; infer_instance


/-! ## Concrete fixtures used by witnesses and counterexamples -/

/-- A rostered team. -/
def wTeam1 : Team := { id := "t1", name := "Alpha" }

/-- A second rostered team. -/
def wTeam2 : Team := { id := "t2", name := "Beta" }

/-- An unplayed stored match between the two fixture teams. -/
def wMatch0 : Match :=
  { id := "m0", league_id := "L", round := 1, home_team_id := "t1",
    away_team_id := "t2", court := none, scheduled_at := 5,
    home_score := none, away_score := none }

/-- A store with a single rostered team and one stored match. -/
def wState1 : LeagueState := { teams := [wTeam1], match_list := [wMatch0] }

/-- A store with two rostered teams and one stored match. -/
def wState2 : LeagueState := { teams := [wTeam1, wTeam2], match_list := [wMatch0] }

/-- A four-team roster (for the temporal-spacing example of the spec). -/
def wTeams4 : List Team :=
  [wTeam1, wTeam2, { id := "t3", name := "Gamma" }, { id := "t4", name := "Delta" }]

/-! # Theorems -/

/-! ## C1 — a scored match referencing an unrostered team -/

/-- C1: the claim (and the spec) require that a scored match referencing a
team identity absent from the roster must not crash the standings
computation.  The code indexes `stats[m.home_team_id]` directly, so on the
roster `[t1]` with a scored match `t1` vs the unrostered `zz` the
computation raises `KeyError` (modelled by `none`); no table is returned for
the rostered teams.  The code contradicts the spec here, so the claim is
recorded as a code bug, witnessed by this evaluation at the failing input. -/
theorem standings_crash_on_unrostered_team :
    standings [wTeam1]
      [{ wMatch0 with away_team_id := "zz",
                      home_score := some 1, away_score := some 0 }] = none := by
  rfl

/-! ## C6 — rejection with fewer than 2 teams -/

/-- C6: with fewer than 2 rostered teams, schedule generation fails with the
"not enough teams" error and the whole store — in particular any previously
stored schedule — is left completely unchanged. -/
theorem generate_schedule_not_enough_teams (lid : String) (genId : Nat → String)
    (rounds start interval : Int) (st : LeagueState) (h : st.teams.length < 2) :
    generate_schedule lid genId rounds start interval st =
      (Except.error "Need at least 2 teams to schedule matches", st) := by
  unfold generate_schedule
  rw [if_pos h]

/-- Witness for C6: a league with one team and a pre-existing stored match. -/
theorem generate_schedule_not_enough_teams_witness :
    wState1.teams.length < 2 ∧
    generate_schedule "L" (fun k => toString k) 3 0 7 wState1 =
      (Except.error "Need at least 2 teams to schedule matches", wState1) :=
  ⟨by decide, generate_schedule_not_enough_teams "L" (fun k => toString k) 3 0 7 wState1
    (by decide)⟩

/-! ## C9 — rounds ≤ 0 is not rejected -/

/-- C9: with at least 2 teams, `rounds = 0` or a negative `rounds` does not
fail: `range(1, rounds + 1)` is empty, so the empty fixture list is returned
and it replaces any previously stored schedule. -/
theorem generate_schedule_nonpositive_rounds (lid : String) (genId : Nat → String)
    (rounds start interval : Int) (st : LeagueState)
    (h2 : 2 ≤ st.teams.length) (hr : rounds ≤ 0) :
    generate_schedule lid genId rounds start interval st =
      (Except.ok [], { st with match_list := [] }) := by
  unfold generate_schedule generate_matches
  rw [if_neg (by omega)]
  have h0 : rounds.toNat = 0 := by omega
  rw [h0]
  rfl

/-- Witness for C9: two teams, `rounds = -1`, a pre-existing stored match
that gets wiped. -/
theorem generate_schedule_nonpositive_rounds_witness :
    2 ≤ wState2.teams.length ∧ (-1 : Int) ≤ 0 ∧
    generate_schedule "L" (fun k => toString k) (-1) 0 7 wState2 =
      (Except.ok [], { wState2 with match_list := [] }) :=
  ⟨by decide, by decide,
    generate_schedule_nonpositive_rounds "L" (fun k => toString k) (-1) 0 7 wState2
      (by decide) (by decide)⟩

/-! ## C7 — result recording -/

/-- C7: recording a result for a `matchId` absent from the league's match
list fails with "Match not found" and leaves the store unmodified; when the
`matchId` is present the call succeeds, exactly the matches with that id
receive the two scores, every other match is unchanged (position by
position), and the new list is stored. -/
theorem update_result_spec (matchId : String) (hs aws : Int) (st : LeagueState) :
    ((∀ m ∈ st.match_list, m.id ≠ matchId) →
      update_result matchId hs aws st = (Except.error "Match not found", st)) ∧
    ((∃ m ∈ st.match_list, m.id = matchId) →
      ∃ l, update_result matchId hs aws st = (Except.ok l, { st with match_list := l }) ∧
        l.length = st.match_list.length ∧
        ∀ (i : Nat) (m : Match), st.match_list[i]? = some m →
          l[i]? = some (if m.id = matchId
            then { m with home_score := some hs, away_score := some aws }
            else m)) := by
  constructor
  · intro h
    have hany : (st.match_list.any fun m => m.id == matchId) = false := by
      rw [List.any_eq_false]
      intro m hm
      simpa using h m hm
    unfold update_result
    rw [hany]
    rfl
  · rintro ⟨m0, hm0, hid0⟩
    have hany : (st.match_list.any fun m => m.id == matchId) = true := by
      rw [List.any_eq_true]
      exact ⟨m0, hm0, by simpa using hid0⟩
    refine ⟨st.match_list.map fun m =>
      if m.id = matchId then { m with home_score := some hs, away_score := some aws }
      else m, ?_, by simp, ?_⟩
    · unfold update_result
      rw [hany]
      rfl
    · intro i m hm
      simp [List.getElem?_map, hm]

/-- Witness for C7: a one-match store and an absent match id. -/
theorem update_result_spec_witness :
    update_result "zz" 3 4 wState2 = (Except.error "Match not found", wState2) :=
  (update_result_spec "zz" 3 4 wState2).1 (by decide)

/-! ## C8 — score validation and the both-or-neither invariant -/

/-- C8 counterexample: `RecordResult` does not validate score signs: with
negative `homeScore`/`awayScore` the call succeeds and the negative scores
are stored, so the part of the claim stating that only non-negative scores
are accepted (negatives rejected as malformed) is false. -/
theorem update_result_accepts_negative_scores :
    update_result "m0" (-3) (-4) wState2 =
      (Except.ok [{ wMatch0 with home_score := some (-3), away_score := some (-4) }],
       { wState2 with
         match_list := [{ wMatch0 with home_score := some (-3),
                                       away_score := some (-4) }] }) := by
  rfl

/-- Generated fixtures carry no scores. -/
theorem gen_round_scores_none (lid : String) (genId : Nat → String) (r : Nat)
    (interval : Int) :
    ∀ ps k w, ∀ m ∈ (gen_round lid genId r interval ps k w).1,
      m.home_score = none ∧ m.away_score = none
  | [], _, _ => by intro m hm; simp [gen_round] at hm
  | (h, a) :: ps, k, w => by
    intro m hm
    rw [gen_round] at hm
    rcases List.mem_cons.mp hm with hm | hm
    · subst hm; exact ⟨rfl, rfl⟩
    · exact gen_round_scores_none lid genId r interval ps (k + 1) (w + interval) m hm

/-- Generated schedules carry no scores (all rounds). -/
theorem gen_rounds_scores_none (lid : String) (genId : Nat → String)
    (pairs : List (Team × Team)) (interval : Int) :
    ∀ rs k w, ∀ m ∈ gen_rounds lid genId pairs interval rs k w,
      m.home_score = none ∧ m.away_score = none
  | [], _, _ => by intro m hm; simp [gen_rounds] at hm
  | r :: rs, k, w => by
    intro m hm
    rw [gen_rounds] at hm
    rcases List.mem_append.mp hm with hm | hm
    · exact gen_round_scores_none lid genId r interval pairs k w m hm
    · exact gen_rounds_scores_none lid genId pairs interval rs _ _ m hm

/-- C8 (amended): after any sequence of operations, every stored match has
`home_score` and `away_score` either both `null` or both set — but the set
scores are arbitrary integers: `RecordResult` always writes both scores
together, yet performs no non-negativity validation. -/
theorem scores_paired_invariant (st : LeagueState) (ops : List Op)
    (h : scores_paired st.match_list) : scores_paired (apply_ops st ops).match_list := by
  induction ops generalizing st with
  | nil => exact h
  | cons op ops ih =>
    refine ih _ ?_
    cases op with
    | genSchedule lid genId rounds start interval =>
      by_cases hc : st.teams.length < 2
      · simpa [apply_op, generate_schedule, hc] using h
      · intro m hm
        simp only [apply_op, generate_schedule, hc, if_false, generate_matches] at hm
        exact Or.inl (gen_rounds_scores_none lid genId _ interval _ _ _ m hm)
    | recordResult matchId hs aws =>
      by_cases hc : (st.match_list.any fun m => m.id == matchId) = true
      · intro m hm
        simp only [apply_op, update_result, hc, if_true] at hm
        rcases List.mem_map.mp hm with ⟨m0, hm0, rfl⟩
        by_cases hid : m0.id = matchId
        · simp only [hid, if_true]
          exact Or.inr ⟨rfl, rfl⟩
        · simp only [hid, if_false]
          exact h m0 hm0
      · simpa [apply_op, update_result, hc] using h
    | addTeam t => exact h
    | removeTeam tid => exact h

/-- Witness for C8 (amended): the invariant holds after recording a result
(with a negative score) on an initially unscored store. -/
theorem scores_paired_invariant_witness :
    scores_paired wState2.match_list ∧
    scores_paired (apply_ops wState2 [Op.recordResult "m0" (-3) 4]).match_list :=
  ⟨by decide, scores_paired_invariant wState2 [Op.recordResult "m0" (-3) 4] (by decide)⟩

/-! ## Schedule generator characterization (for C2 and C3) -/

/-- Each round pairs off `⌊N/2⌋` consecutive roster pairs. -/
theorem round_pairs_length : ∀ teams : List Team,
    (round_pairs teams).length = teams.length / 2
  | [] => by simp [round_pairs]
  | [_] => by simp [round_pairs]
  | a :: b :: rest => by
      simp [round_pairs, round_pairs_length rest]
      omega

/-- The `i`-th pair consists of the teams at roster positions `2i`, `2i+1`. -/
theorem round_pairs_get : ∀ (teams : List Team) (i : Nat) (p : Team × Team),
    (round_pairs teams)[i]? = some p →
    teams[2 * i]? = some p.1 ∧ teams[2 * i + 1]? = some p.2
  | [], i, p, hp => by simp [round_pairs] at hp
  | [_], i, p, hp => by simp [round_pairs] at hp
  | a :: b :: rest, 0, p, hp => by
      simp [round_pairs] at hp
      simp [← hp]
  | a :: b :: rest, i + 1, p, hp => by
      have hp' : (round_pairs rest)[i]? = some p := by
        simpa [round_pairs] using hp
      obtain ⟨h1, h2⟩ := round_pairs_get rest i p hp'
      have e1 : 2 * (i + 1) = 2 * i + 1 + 1 := by ring
      rw [e1]
      simp [List.getElem?_cons_succ, h1, h2]

/-- `gen_round` leaves the counter advanced by the number of pairs and the
timestamp advanced by as many intervals. -/
theorem gen_round_snd (lid : String) (genId : Nat → String) (r : Nat) (interval : Int) :
    ∀ (ps : List (Team × Team)) (k : Nat) (w : Int),
    (gen_round lid genId r interval ps k w).2 = (k + ps.length, w + ps.length * interval)
  | [], k, w => by simp [gen_round]
  | (h, a) :: ps, k, w => by
      rw [gen_round]
      rw [gen_round_snd lid genId r interval ps (k + 1) (w + interval)]
      refine Prod.ext ?_ ?_ <;> simp
      · omega
      · ring

/-- `gen_round` emits one match per pair. -/
theorem gen_round_length (lid : String) (genId : Nat → String) (r : Nat) (interval : Int) :
    ∀ (ps : List (Team × Team)) (k : Nat) (w : Int),
    (gen_round lid genId r interval ps k w).1.length = ps.length
  | [], k, w => rfl
  | (h, a) :: ps, k, w => by
      rw [gen_round]
      simp [gen_round_length lid genId r interval ps (k + 1) (w + interval)]

/-- The `i`-th match of a round block: identity from the global counter,
timestamp advanced `i` intervals, teams from the `i`-th pair. -/
theorem gen_round_get (lid : String) (genId : Nat → String) (r : Nat) (interval : Int) :
    ∀ (ps : List (Team × Team)) (k : Nat) (w : Int) (i : Nat) (p : Team × Team),
    ps[i]? = some p →
    (gen_round lid genId r interval ps k w).1[i]? = some
      { id := genId (k + i), league_id := lid, round := r,
        home_team_id := p.1.id, away_team_id := p.2.id, court := none,
        scheduled_at := w + i * interval, home_score := none, away_score := none }
  | [], k, w, i, p, hp => by simp at hp
  | (h, a) :: ps, k, w, 0, p, hp => by
      simp at hp
      rw [gen_round]
      simp [← hp]
  | (h, a) :: ps, k, w, i + 1, p, hp => by
      rw [gen_round]
      have hrec := gen_round_get lid genId r interval ps (k + 1) (w + interval) i p
        (by simpa using hp)
      have e1 : k + 1 + i = k + (i + 1) := by omega
      have e2 : w + interval + (i : Int) * interval = w + ((i : Nat) + 1 : Nat) * interval := by
        push_cast
        ring
      rw [e1, e2] at hrec
      simpa [List.getElem?_cons_succ] using hrec

/-- Total fixture count: rounds × pairs. -/
theorem gen_rounds_length (lid : String) (genId : Nat → String)
    (pairs : List (Team × Team)) (interval : Int) :
    ∀ (rs : List Nat) (k : Nat) (w : Int),
    (gen_rounds lid genId pairs interval rs k w).length = rs.length * pairs.length
  | [], _, _ => by simp [gen_rounds]
  | r :: rs, k, w => by
      rw [gen_rounds]
      simp [List.length_append, gen_round_length,
        gen_rounds_length lid genId pairs interval rs]
      ring

/-- The `j`-th fixture overall (0-indexed, across rounds): round label from
`rs[j / P]`, teams from pair `j % P`, identity `genId (k + j)`, timestamp
`w + j · interval`, where `P` is the number of pairs. -/
theorem gen_rounds_get (lid : String) (genId : Nat → String)
    (pairs : List (Team × Team)) (interval : Int) (hP : 0 < pairs.length) :
    ∀ (rs : List Nat) (k : Nat) (w : Int) (j : Nat),
    j < rs.length * pairs.length →
    ∀ (r : Nat), rs[j / pairs.length]? = some r →
    ∀ (p : Team × Team), pairs[j % pairs.length]? = some p →
    (gen_rounds lid genId pairs interval rs k w)[j]? = some
      { id := genId (k + j), league_id := lid, round := r,
        home_team_id := p.1.id, away_team_id := p.2.id, court := none,
        scheduled_at := w + j * interval, home_score := none, away_score := none }
  | [], k, w, j, hj, r, hr, p, hp => by simp at hj
  | r0 :: rs, k, w, j, hj, r, hr, p, hp => by
      rw [gen_rounds]
      by_cases hjP : j < pairs.length
      · have hdiv : j / pairs.length = 0 := Nat.div_eq_of_lt hjP
        have hmod : j % pairs.length = j := Nat.mod_eq_of_lt hjP
        rw [hdiv] at hr
        simp at hr
        rw [hmod] at hp
        rw [List.getElem?_append_left
          (by rw [gen_round_length]; exact hjP)]
        rw [← hr]
        exact gen_round_get lid genId r0 interval pairs k w j p hp
      · push_neg at hjP
        obtain ⟨j', rfl⟩ : ∃ j', j = pairs.length + j' :=
          ⟨j - pairs.length, by omega⟩
        rw [List.getElem?_append_right (by rw [gen_round_length]; omega)]
        rw [gen_round_length]
        have hsub : pairs.length + j' - pairs.length = j' := by omega
        rw [hsub, gen_round_snd]
        have hj' : j' < rs.length * pairs.length := by
          simp only [List.length_cons] at hj
          rw [add_one_mul, add_comm pairs.length j'] at hj
          exact lt_of_add_lt_add_right hj
        have hdiv : (pairs.length + j') / pairs.length = j' / pairs.length + 1 := by
          rw [add_comm]
          exact Nat.add_div_right j' hP
        rw [hdiv] at hr
        simp [List.getElem?_cons_succ] at hr
        have hmod : (pairs.length + j') % pairs.length = j' % pairs.length := by
          rw [add_comm]
          exact Nat.add_mod_right j' pairs.length
        rw [hmod] at hp
        have hrec := gen_rounds_get lid genId pairs interval hP rs
          (k + pairs.length) (w + pairs.length * interval) j' hj' r hr p hp
        have e1 : k + pairs.length + j' = k + (pairs.length + j') := by omega
        have e2 : w + (pairs.length : Int) * interval + (j' : Int) * interval =
            w + ((pairs.length + j' : Nat) : Int) * interval := by
          push_cast
          ring
        rw [e1, e2] at hrec
        exact hrec

/-- Every match of a round block carries that round's label. -/
theorem gen_round_round_const (lid : String) (genId : Nat → String) (r : Nat)
    (interval : Int) :
    ∀ (ps : List (Team × Team)) (k : Nat) (w : Int),
    ∀ m ∈ (gen_round lid genId r interval ps k w).1, m.round = r
  | [], _, _ => by intro m hm; simp [gen_round] at hm
  | (h, a) :: ps, k, w => by
    intro m hm
    rw [gen_round] at hm
    rcases List.mem_cons.mp hm with hm | hm
    · subst hm; rfl
    · exact gen_round_round_const lid genId r interval ps (k + 1) (w + interval) m hm

/-- With pairwise-distinct round labels, filtering the generated fixtures by
one label yields exactly one round block (or nothing). -/
theorem gen_rounds_filter_count (lid : String) (genId : Nat → String)
    (pairs : List (Team × Team)) (interval : Int) (i : Nat) :
    ∀ (rs : List Nat) (k : Nat) (w : Int), rs.Nodup →
    ((gen_rounds lid genId pairs interval rs k w).filter fun m => m.round == i).length =
      if i ∈ rs then pairs.length else 0
  | [], _, _, _ => by simp [gen_rounds]
  | r0 :: rs, k, w, hnd => by
      rcases List.nodup_cons.mp hnd with ⟨hr0, hnd'⟩
      rw [gen_rounds, List.filter_append, List.length_append]
      rw [gen_rounds_filter_count lid genId pairs interval i rs _ _ hnd']
      by_cases hi : i = r0
      · subst hi
        have hblock : (gen_round lid genId i interval pairs k w).1.filter
            (fun m => m.round == i) = (gen_round lid genId i interval pairs k w).1 :=
          List.filter_eq_self.mpr fun m hm => by
            simpa using gen_round_round_const lid genId i interval pairs k w m hm
        rw [hblock, gen_round_length]
        simp [hr0]
      · have hblock : (gen_round lid genId r0 interval pairs k w).1.filter
            (fun m => m.round == i) = [] :=
          List.filter_eq_nil_iff.mpr fun m hm => by
            simp [gen_round_round_const lid genId r0 interval pairs k w m hm,
              Ne.symm hi]
        rw [hblock]
        simp [List.mem_cons, hi]

/-! ## C2 — pairing policy -/

/-- C2: with `N ≥ 2` teams and `rounds = r ≥ 1`, the generated schedule has
`r · ⌊N/2⌋` fixtures; each round label `i ∈ [1, r]` carries exactly `⌊N/2⌋`
of them; and the `j`-th fixture overall (0-indexed) belongs to round
`j / ⌊N/2⌋ + 1` and pairs the teams at roster positions
`(2·(j % ⌊N/2⌋), 2·(j % ⌊N/2⌋) + 1)` in (home, away) order — so the
pairings depend only on `j % ⌊N/2⌋` and repeat identically in every round,
and with odd `N` the last roster team appears in no fixture. -/
theorem generate_matches_pairings (lid : String) (genId : Nat → String)
    (teams : List Team) (rounds start interval : Int)
    (h2 : 2 ≤ teams.length) (_hr : 1 ≤ rounds) :
    (generate_matches lid genId teams rounds start interval).length
      = rounds.toNat * (teams.length / 2) ∧
    (∀ i : Nat, 1 ≤ i → i ≤ rounds.toNat →
      ((generate_matches lid genId teams rounds start interval).filter
        fun m => m.round == i).length = teams.length / 2) ∧
    (∀ j : Nat, j < rounds.toNat * (teams.length / 2) →
      ∃ (m : Match) (tH tA : Team),
        (generate_matches lid genId teams rounds start interval)[j]? = some m ∧
        teams[2 * (j % (teams.length / 2))]? = some tH ∧
        teams[2 * (j % (teams.length / 2)) + 1]? = some tA ∧
        m.round = j / (teams.length / 2) + 1 ∧
        m.home_team_id = tH.id ∧ m.away_team_id = tA.id) := by
  have hPlen : (round_pairs teams).length = teams.length / 2 := round_pairs_length teams
  have hP : 0 < (round_pairs teams).length := by omega
  rw [← hPlen]
  unfold generate_matches
  refine ⟨?_, ?_, ?_⟩
  · rw [gen_rounds_length]
    simp
  · intro i h1 h2i
    rw [gen_rounds_filter_count lid genId (round_pairs teams) interval i _ _ _
      (List.Nodup.map (fun a b hab => by omega) (List.nodup_range rounds.toNat))]
    have : i ∈ (List.range rounds.toNat).map (· + 1) := by
      simp only [List.mem_map, List.mem_range]
      exact ⟨i - 1, by omega, by omega⟩
    rw [if_pos this]
  · intro j hj
    have hjlen : j < ((List.range rounds.toNat).map (· + 1)).length *
        (round_pairs teams).length := by
      simpa using hj
    have hdivlt : j / (round_pairs teams).length < rounds.toNat := by
      rw [Nat.div_lt_iff_lt_mul hP]
      simpa using hj
    have hrs : ((List.range rounds.toNat).map (· + 1))[j / (round_pairs teams).length]? =
        some (j / (round_pairs teams).length + 1) := by
      simp [List.getElem?_map, List.getElem?_range hdivlt]
    have hmodlt : j % (round_pairs teams).length < (round_pairs teams).length :=
      Nat.mod_lt _ hP
    have hpair := List.getElem?_eq_getElem hmodlt
    obtain ⟨hH, hA⟩ := round_pairs_get teams (j % (round_pairs teams).length) _ hpair
    refine ⟨_, _, _,
      gen_rounds_get lid genId (round_pairs teams) interval hP _ 0 start j hjlen
        _ hrs _ hpair, hH, hA, rfl, rfl, rfl⟩

/-- Witness for C2: two teams, two rounds. -/
theorem generate_matches_pairings_witness :
    2 ≤ ([wTeam1, wTeam2] : List Team).length ∧ (1 : Int) ≤ 2 ∧
    ((generate_matches "L" (fun k => toString k) [wTeam1, wTeam2] 2 0 7).length
      = (2 : Int).toNat * ([wTeam1, wTeam2].length / 2) ∧
    (∀ i : Nat, 1 ≤ i → i ≤ (2 : Int).toNat →
      ((generate_matches "L" (fun k => toString k) [wTeam1, wTeam2] 2 0 7).filter
        fun m => m.round == i).length = [wTeam1, wTeam2].length / 2) ∧
    (∀ j : Nat, j < (2 : Int).toNat * ([wTeam1, wTeam2].length / 2) →
      ∃ (m : Match) (tH tA : Team),
        (generate_matches "L" (fun k => toString k) [wTeam1, wTeam2] 2 0 7)[j]? = some m ∧
        [wTeam1, wTeam2][2 * (j % ([wTeam1, wTeam2].length / 2))]? = some tH ∧
        [wTeam1, wTeam2][2 * (j % ([wTeam1, wTeam2].length / 2)) + 1]? = some tA ∧
        m.round = j / ([wTeam1, wTeam2].length / 2) + 1 ∧
        m.home_team_id = tH.id ∧ m.away_team_id = tA.id)) :=
  ⟨by decide, by decide,
    generate_matches_pairings "L" (fun k => toString k) [wTeam1, wTeam2] 2 0 7
      (by decide) (by decide)⟩

/-! ## C3 — temporal spacing -/

/-- C3: the `j`-th generated fixture overall (0-indexed, counted globally
across rounds) is scheduled at `start + j · interval`; with `rounds = 2`,
4 teams, `start = T` and interval `D` this yields T, T+D, T+2D, T+3D. -/
theorem generate_matches_times (lid : String) (genId : Nat → String)
    (teams : List Team) (rounds start interval : Int) :
    ∀ j : Nat, j < (generate_matches lid genId teams rounds start interval).length →
      ∃ m : Match,
        (generate_matches lid genId teams rounds start interval)[j]? = some m ∧
        m.scheduled_at = start + j * interval := by
  intro j hj
  unfold generate_matches at *
  rw [gen_rounds_length] at hj
  by_cases hP : 0 < (round_pairs teams).length
  · have hdivlt : j / (round_pairs teams).length <
        ((List.range rounds.toNat).map (· + 1)).length := by
      rw [Nat.div_lt_iff_lt_mul hP]
      exact hj
    have hdivlt' : j / (round_pairs teams).length < rounds.toNat := by
      simpa using hdivlt
    have hrs : ((List.range rounds.toNat).map (· + 1))[j / (round_pairs teams).length]? =
        some (j / (round_pairs teams).length + 1) := by
      simp [List.getElem?_map, List.getElem?_range hdivlt']
    have hmodlt : j % (round_pairs teams).length < (round_pairs teams).length :=
      Nat.mod_lt _ hP
    have hpair := List.getElem?_eq_getElem hmodlt
    exact ⟨_, gen_rounds_get lid genId (round_pairs teams) interval hP _ 0 start j hj
      _ hrs _ hpair, rfl⟩
  · exfalso
    have : (round_pairs teams).length = 0 := by omega
    rw [this, Nat.mul_zero] at hj
    exact Nat.not_lt_zero j hj

/-- Witness for C3: 4 teams, 2 rounds, start T = 100, interval D = 7; the
fourth fixture (j = 3) is scheduled at T + 3D. -/
theorem generate_matches_times_witness :
    3 < (generate_matches "L" (fun k => toString k) wTeams4 2 100 7).length ∧
    ∃ m : Match,
      (generate_matches "L" (fun k => toString k) wTeams4 2 100 7)[3]? = some m ∧
      m.scheduled_at = 100 + 3 * 7 :=
  ⟨by decide, generate_matches_times "L" (fun k => toString k) wTeams4 2 100 7 3
    (by decide)⟩

/-! ## Dict lemmas (for C4, C5, C10) -/

/-- Lookup through a key-preserving map acts on the found value. -/
theorem dict_find_map_keyed (F : String → Standing → Standing) (k : String) :
    ∀ d : StatsDict,
    dict_find k (d.map fun e => (e.1, F e.1 e.2)) = (dict_find k d).map (F k)
  | [] => rfl
  | (k', v) :: rest => by
      by_cases h : k = k' <;>
        simp [dict_find, h, dict_find_map_keyed F k rest]

/-- A key-preserving map leaves the key sequence unchanged. -/
theorem dict_keys_map_keyed (F : String → Standing → Standing) (d : StatsDict) :
    dict_keys (d.map fun e => (e.1, F e.1 e.2)) = dict_keys d := by
  unfold dict_keys
  rw [List.map_map]
  rfl

/-- Lookup succeeds exactly on present keys. -/
theorem dict_find_isSome_iff (k : String) :
    ∀ d : StatsDict, (dict_find k d).isSome ↔ k ∈ dict_keys d
  | [] => by simp [dict_find, dict_keys]
  | (k', v) :: rest => by
      by_cases h : k = k' <;>
        simp [dict_find, dict_keys, h, dict_find_isSome_iff k rest]

/-- A successful lookup returns a stored entry. -/
theorem dict_find_mem (k : String) : ∀ {d : StatsDict} {v : Standing},
    dict_find k d = some v → (k, v) ∈ d
  | [], v, h => by simp [dict_find] at h
  | (k', v') :: rest, v, h => by
      by_cases hk : k = k'
      · subst hk
        simp [dict_find] at h
        simp [← h]
      · simp [dict_find, hk] at h
        exact List.mem_cons_of_mem _ (dict_find_mem k h)

/-- Inserting re-uses the slot of a present key, else appends a new one. -/
theorem dict_keys_insert (k : String) (v : Standing) :
    ∀ d : StatsDict,
    dict_keys (dict_insert k v d) =
      if k ∈ dict_keys d then dict_keys d else dict_keys d ++ [k]
  | [] => by simp [dict_insert, dict_keys]
  | (k', v') :: rest => by
      by_cases h : k = k'
      · subst h
        simp [dict_insert, dict_keys]
      · have hrec := dict_keys_insert k v rest
        simp only [dict_keys] at hrec ⊢
        simp only [dict_insert, if_neg h, List.map_cons]
        rw [hrec]
        by_cases hmem : k ∈ List.map Prod.fst rest
        · simp [hmem, h, List.mem_cons]
        · simp [hmem, h, List.mem_cons]

/-- Inserting preserves key distinctness. -/
theorem dict_keys_insert_nodup (k : String) (v : Standing) (d : StatsDict)
    (h : (dict_keys d).Nodup) : (dict_keys (dict_insert k v d)).Nodup := by
  rw [dict_keys_insert]
  by_cases hmem : k ∈ dict_keys d
  · simpa [hmem] using h
  · simp only [hmem, if_false]
    simp [List.nodup_append, h, hmem]

/-- Membership in an entry of `dict_insert`. -/
theorem mem_dict_insert (k : String) (v : Standing) :
    ∀ {d : StatsDict} {e : String × Standing},
    e ∈ dict_insert k v d → e = (k, v) ∨ e ∈ d
  | [], e, h => by simpa [dict_insert] using h
  | (k', v') :: rest, e, h => by
      by_cases hk : k = k'
      · subst hk
        simp only [dict_insert, if_pos rfl] at h
        rcases List.mem_cons.mp h with h | h
        · exact Or.inl h
        · exact Or.inr (List.mem_cons_of_mem _ h)
      · simp only [dict_insert, if_neg hk] at h
        rcases List.mem_cons.mp h with h | h
        · exact Or.inr (by simp [h])
        · rcases mem_dict_insert k v h with h | h
          · exact Or.inl h
          · exact Or.inr (List.mem_cons_of_mem _ h)

/-- Inserting a fresh key appends the entry. -/
theorem dict_insert_append (k : String) (v : Standing) :
    ∀ d : StatsDict, k ∉ dict_keys d → dict_insert k v d = d ++ [(k, v)]
  | [], _ => rfl
  | (k', v') :: rest, h => by
      have hk : k ≠ k' := by
        intro hk
        exact h (by simp [dict_keys, hk])
      have hrest : k ∉ dict_keys rest := by
        intro hmem
        exact h (by simp [dict_keys] at hmem ⊢; exact Or.inr hmem)
      simp [dict_insert, hk, dict_insert_append k v rest hrest]

/-- The fold of `init_stats`, generalized over the accumulator. -/
theorem init_stats_fold_eq : ∀ (teams : List Team) (d : StatsDict),
    (∀ t ∈ teams, t.id ∉ dict_keys d) → (teams.map Team.id).Nodup →
    teams.foldl (fun d t => dict_insert t.id (zero_standing t) d) d =
      d ++ teams.map fun t => (t.id, zero_standing t)
  | [], d, _, _ => by simp
  | t :: ts, d, hfresh, hnd => by
      rw [List.foldl_cons]
      rw [dict_insert_append t.id (zero_standing t) d (hfresh t (by simp))]
      have hnd' : (ts.map Team.id).Nodup := (List.nodup_cons.mp hnd).2
      have htid : t.id ∉ ts.map Team.id := (List.nodup_cons.mp hnd).1
      rw [init_stats_fold_eq ts (d ++ [(t.id, zero_standing t)]) ?_ hnd']
      · simp
      · intro t' ht'
        simp only [dict_keys, List.map_append]
        rw [List.mem_append]
        rintro (h | h)
        · exact hfresh t' (List.mem_cons_of_mem _ ht') h
        · simp at h
          exact htid (h ▸ List.mem_map_of_mem Team.id ht')

/-- With pairwise-distinct roster ids, `init_stats` is the literal list of
zero rows in roster order. -/
theorem init_stats_eq_map (teams : List Team) (hnd : (teams.map Team.id).Nodup) :
    init_stats teams = teams.map fun t => (t.id, zero_standing t) := by
  unfold init_stats
  rw [init_stats_fold_eq teams [] (by simp [dict_keys]) hnd]
  simp

/-- Every entry of `init_stats` is a zero row of some rostered team. -/
theorem mem_init_stats : ∀ (teams : List Team) (d : StatsDict)
    (e : String × Standing),
    e ∈ teams.foldl (fun d t => dict_insert t.id (zero_standing t) d) d →
    e ∈ d ∨ ∃ t ∈ teams, e = (t.id, zero_standing t)
  | [], d, e, h => Or.inl (by simpa using h)
  | t :: ts, d, e, h => by
      rw [List.foldl_cons] at h
      rcases mem_init_stats ts _ e h with h | ⟨t', ht', rfl⟩
      · rcases mem_dict_insert t.id (zero_standing t) h with h | h
        · exact Or.inr ⟨t, by simp, h⟩
        · exact Or.inl h
      · exact Or.inr ⟨t', List.mem_cons_of_mem _ ht', rfl⟩

/-- Key membership in `init_stats` is roster-id membership. -/
theorem mem_dict_keys_init_fold : ∀ (teams : List Team) (d : StatsDict) (k : String),
    (k ∈ dict_keys (teams.foldl (fun d t => dict_insert t.id (zero_standing t) d) d)) ↔
      k ∈ dict_keys d ∨ k ∈ teams.map Team.id
  | [], d, k => by simp
  | t :: ts, d, k => by
      rw [List.foldl_cons]
      rw [mem_dict_keys_init_fold ts _ k]
      rw [dict_keys_insert]
      by_cases hmem : t.id ∈ dict_keys d
      · simp only [hmem, if_true]
        constructor
        · rintro (h | h)
          · exact Or.inl h
          · exact Or.inr (by simp [h])
        · rintro (h | h)
          · exact Or.inl h
          · simp only [List.map_cons, List.mem_cons] at h
            rcases h with rfl | h
            · exact Or.inl hmem
            · exact Or.inr h
      · simp only [hmem, if_false]
        constructor
        · rintro (h | h)
          · rw [List.mem_append] at h
            rcases h with h | h
            · exact Or.inl h
            · simp at h
              exact Or.inr (by simp [h])
          · exact Or.inr (by simp [h])
        · rintro (h | h)
          · exact Or.inl (List.mem_append.mpr (Or.inl h))
          · simp only [List.map_cons, List.mem_cons] at h
            rcases h with rfl | h
            · exact Or.inl (List.mem_append.mpr (Or.inr (by simp)))
            · exact Or.inr h

/-- Key membership in `init_stats teams` is membership in the roster ids. -/
theorem mem_dict_keys_init (teams : List Team) (k : String) :
    k ∈ dict_keys (init_stats teams) ↔ k ∈ teams.map Team.id := by
  unfold init_stats
  rw [mem_dict_keys_init_fold teams [] k]
  simp [dict_keys]

/-- The keys of `init_stats` are pairwise distinct (a Python dict cannot
hold a key twice), with no assumption on the roster. -/
theorem init_stats_keys_nodup_fold : ∀ (teams : List Team) (d : StatsDict),
    (dict_keys d).Nodup →
    (dict_keys (teams.foldl (fun d t => dict_insert t.id (zero_standing t) d) d)).Nodup
  | [], d, h => h
  | t :: ts, d, h => by
      rw [List.foldl_cons]
      exact init_stats_keys_nodup_fold ts _ (dict_keys_insert_nodup _ _ _ h)

/-- The keys of `init_stats` are pairwise distinct. -/
theorem init_stats_keys_nodup (teams : List Team) :
    (dict_keys (init_stats teams)).Nodup :=
  init_stats_keys_nodup_fold teams [] (by simp [dict_keys])

/-! ## Tally and process lemmas -/

/-- `tally_match` is a single pointwise pass over the dict: the chain of
eight in-place `+=` updates amounts to applying `tally_value` to every
entry (compounding correctly when home and away alias). -/
theorem tally_match_eq_map (hid aid : String) (hs aws : Int) (d : StatsDict) :
    tally_match hid aid hs aws d =
      d.map fun e => (e.1, tally_value hid aid hs aws e.1 e.2) := by
  rcases lt_trichotomy aws hs with hcmp | hcmp | hcmp
  · simp only [tally_match, dict_adjust, if_pos hcmp, List.map_map]
    refine List.map_congr_left fun e _ => ?_
    obtain ⟨k, s⟩ := e
    have hns : ¬ hs < aws := by omega
    by_cases h1 : hid = k <;> by_cases h2 : aid = k <;>
      simp [tally_value, h1, h2, hcmp, hns, Standing.mk.injEq] <;> omega
  · simp only [tally_match, dict_adjust, if_neg (by omega : ¬ aws < hs),
      if_neg (by omega : ¬ hs < aws), List.map_map]
    refine List.map_congr_left fun e _ => ?_
    obtain ⟨k, s⟩ := e
    have h1' : ¬ aws < hs := by omega
    have h2' : ¬ hs < aws := by omega
    by_cases h1 : hid = k <;> by_cases h2 : aid = k <;>
      simp [tally_value, h1, h2, h1', h2', Standing.mk.injEq] <;> omega
  · simp only [tally_match, dict_adjust, if_neg (by omega : ¬ aws < hs),
      if_pos hcmp, List.map_map]
    refine List.map_congr_left fun e _ => ?_
    obtain ⟨k, s⟩ := e
    have hns : ¬ aws < hs := by omega
    by_cases h1 : hid = k <;> by_cases h2 : aid = k <;>
      simp [tally_value, h1, h2, hcmp, hns, Standing.mk.injEq] <;> omega

/-- For a scored match, `tally_value` adds exactly the spec-side per-match
contributions. -/
theorem tally_value_spec (m : Match) (hs aws : Int) (k : String) (v : Standing)
    (hh : m.home_score = some hs) (ha : m.away_score = some aws) :
    tally_value m.home_team_id m.away_team_id hs aws k v =
      { v with
        played := v.played + spec_played_delta k m,
        wins := v.wins + spec_wins_delta k m,
        losses := v.losses + spec_losses_delta k m,
        points_for := v.points_for + spec_pf_delta k m,
        points_against := v.points_against + spec_pa_delta k m } := by
  simp [tally_value, spec_played_delta, spec_wins_delta, spec_losses_delta,
    spec_pf_delta, spec_pa_delta, hh, ha]

/-- Spec-side contributions of the empty match list. -/
theorem spec_add_nil (v : Standing) (k : String) : spec_add v k [] = v := by
  simp [spec_add]

/-- Spec-side contributions accumulate one match at a time. -/
theorem spec_add_cons (v : Standing) (k : String) (m : Match) (ms : List Match) :
    spec_add v k (m :: ms) =
      spec_add { v with
        played := v.played + spec_played_delta k m,
        wins := v.wins + spec_wins_delta k m,
        losses := v.losses + spec_losses_delta k m,
        points_for := v.points_for + spec_pf_delta k m,
        points_against := v.points_against + spec_pa_delta k m } k ms := by
  simp only [spec_add, List.map_cons, List.sum_cons, Standing.mk.injEq, true_and]
  refine ⟨?_, ?_, ?_, ?_, ?_⟩ <;> omega

/-- An unscored match is skipped. -/
theorem process_match_skip (d : StatsDict) (m : Match)
    (h : m.home_score = none ∨ m.away_score = none) :
    process_match d m = some d := by
  rcases h with h | h <;>
    · unfold process_match
      rcases hh : m.home_score with _ | hs <;> rcases ha : m.away_score with _ | aws <;>
        simp_all

/-- A scored match with both teams present tallies. -/
theorem process_match_scored (d : StatsDict) (m : Match) (hs aws : Int)
    (hh : m.home_score = some hs) (ha : m.away_score = some aws)
    (hmh : m.home_team_id ∈ dict_keys d) (hma : m.away_team_id ∈ dict_keys d) :
    process_match d m = some (tally_match m.home_team_id m.away_team_id hs aws d) := by
  obtain ⟨vh, hvh⟩ := Option.isSome_iff_exists.mp
    ((dict_find_isSome_iff m.home_team_id d).mpr hmh)
  obtain ⟨va, hva⟩ := Option.isSome_iff_exists.mp
    ((dict_find_isSome_iff m.away_team_id d).mpr hma)
  unfold process_match
  rw [hh, ha, hvh, hva]

/-- Processing one match never changes the key sequence. -/
theorem process_match_keys (d d' : StatsDict) (m : Match)
    (h : process_match d m = some d') : dict_keys d' = dict_keys d := by
  unfold process_match at h
  rcases hh : m.home_score with _ | hs <;> rw [hh] at h
  · simp at h
    rw [← h]
  · rcases ha : m.away_score with _ | aws <;> rw [ha] at h
    · simp at h
      rw [← h]
    · rcases hfh : dict_find m.home_team_id d with _ | vh <;> rw [hfh] at h
      · simp at h
      · rcases hfa : dict_find m.away_team_id d with _ | va <;> rw [hfa] at h
        · simp at h
        · simp at h
          rw [← h, tally_match_eq_map, dict_keys_map_keyed]

/-- Processing a match list never changes the key sequence. -/
theorem process_matches_keys : ∀ (ms : List Match) (d d' : StatsDict),
    process_matches d ms = some d' → dict_keys d' = dict_keys d
  | [], d, d', h => by
      simp [process_matches] at h
      rw [← h]
  | m :: ms, d, d', h => by
      unfold process_matches at h
      rcases hp : process_match d m with _ | d1 <;> rw [hp] at h
      · simp at h
      · rw [process_matches_keys ms d1 d' h, process_match_keys d d1 m hp]

/-- Under the consistency hypothesis the fold cannot crash. -/
theorem process_matches_total : ∀ (ms : List Match) (d : StatsDict),
    (∀ m ∈ ms, m.home_score.isSome → m.away_score.isSome →
      m.home_team_id ∈ dict_keys d ∧ m.away_team_id ∈ dict_keys d) →
    ∃ d', process_matches d ms = some d'
  | [], d, _ => ⟨d, rfl⟩
  | m :: ms, d, hok => by
      rcases hh : m.home_score with _ | hs
      · have h1 : process_match d m = some d := process_match_skip d m (Or.inl hh)
        obtain ⟨d', hd'⟩ := process_matches_total ms d fun m' hm' =>
          hok m' (List.mem_cons_of_mem _ hm')
        exact ⟨d', by rw [process_matches, h1]; exact hd'⟩
      · rcases ha : m.away_score with _ | aws
        · have h1 : process_match d m = some d := process_match_skip d m (Or.inr ha)
          obtain ⟨d', hd'⟩ := process_matches_total ms d fun m' hm' =>
            hok m' (List.mem_cons_of_mem _ hm')
          exact ⟨d', by rw [process_matches, h1]; exact hd'⟩
        · obtain ⟨hmh, hma⟩ := hok m (by simp) (by simp [hh]) (by simp [ha])
          have h1 := process_match_scored d m hs aws hh ha hmh hma
          have hkeys : dict_keys (tally_match m.home_team_id m.away_team_id hs aws d) =
              dict_keys d := by
            rw [tally_match_eq_map, dict_keys_map_keyed]
          obtain ⟨d', hd'⟩ := process_matches_total ms _ fun m' hm' h1' h2' => by
            rw [hkeys]
            exact hok m' (List.mem_cons_of_mem _ hm') h1' h2'
          exact ⟨d', by rw [process_matches, h1]; exact hd'⟩

/-- A match list with no recorded scores leaves the dict untouched. -/
theorem process_matches_unscored : ∀ (ms : List Match) (d : StatsDict),
    (∀ m ∈ ms, m.home_score = none ∨ m.away_score = none) →
    process_matches d ms = some d
  | [], d, _ => rfl
  | m :: ms, d, h => by
      rw [process_matches, process_match_skip d m (h m (by simp))]
      exact process_matches_unscored ms d fun m' hm' => h m' (List.mem_cons_of_mem _ hm')

/-- Refinement of the fold against the spec-side counters: a row found
before processing is found afterwards with exactly the spec-side sums
added. -/
theorem dict_find_process_matches : ∀ (ms : List Match) (d d' : StatsDict),
    process_matches d ms = some d' →
    ∀ (k : String) (v : Standing), dict_find k d = some v →
    dict_find k d' = some (spec_add v k ms)
  | [], d, d', h, k, v, hf => by
      simp [process_matches] at h
      rw [← h, hf, spec_add_nil]
  | m :: ms, d, d', h, k, v, hf => by
      unfold process_matches at h
      rcases hp : process_match d m with _ | d1 <;> rw [hp] at h
      · simp at h
      · rw [spec_add_cons]
        refine dict_find_process_matches ms d1 d' h k _ ?_
        unfold process_match at hp
        rcases hh : m.home_score with _ | hs <;> rw [hh] at hp
        · simp at hp
          subst hp
          have : spec_played_delta k m = 0 ∧ spec_wins_delta k m = 0 ∧
              spec_losses_delta k m = 0 ∧ spec_pf_delta k m = 0 ∧
              spec_pa_delta k m = 0 := by
            simp [spec_played_delta, spec_wins_delta, spec_losses_delta,
              spec_pf_delta, spec_pa_delta, hh]
          rw [hf]
          simp only [this.1, this.2.1, this.2.2.1, this.2.2.2.1, this.2.2.2.2, add_zero]
        · rcases ha : m.away_score with _ | aws <;> rw [ha] at hp
          · simp at hp
            subst hp
            have : spec_played_delta k m = 0 ∧ spec_wins_delta k m = 0 ∧
                spec_losses_delta k m = 0 ∧ spec_pf_delta k m = 0 ∧
                spec_pa_delta k m = 0 := by
              simp [spec_played_delta, spec_wins_delta, spec_losses_delta,
                spec_pf_delta, spec_pa_delta, hh, ha]
            rw [hf]
            simp only [this.1, this.2.1, this.2.2.1, this.2.2.2.1, this.2.2.2.2, add_zero]
          · rcases hfh : dict_find m.home_team_id d with _ | vh <;> rw [hfh] at hp
            · simp at hp
            · rcases hfa : dict_find m.away_team_id d with _ | va <;> rw [hfa] at hp
              · simp at hp
              · simp only [Option.some.injEq] at hp
                subst hp
                rw [tally_match_eq_map, dict_find_map_keyed, hf]
                simp only [Option.map_some']
                rw [tally_value_spec m hs aws k v hh ha]

/-- Processing never changes an entry's key or its row's team identity and
display name. -/
theorem process_matches_ids : ∀ (ms : List Match) (d d' : StatsDict),
    process_matches d ms = some d' →
    d'.map (fun e => (e.1, e.2.team_id, e.2.team_name)) =
      d.map (fun e => (e.1, e.2.team_id, e.2.team_name))
  | [], d, d', h => by
      simp [process_matches] at h
      rw [← h]
  | m :: ms, d, d', h => by
      unfold process_matches at h
      rcases hp : process_match d m with _ | d1 <;> rw [hp] at h
      · simp at h
      · rw [process_matches_ids ms d1 d' h]
        unfold process_match at hp
        rcases hh : m.home_score with _ | hs <;> rw [hh] at hp
        · simp at hp
          rw [hp]
        · rcases ha : m.away_score with _ | aws <;> rw [ha] at hp
          · simp at hp
            rw [hp]
          · rcases hfh : dict_find m.home_team_id d with _ | vh <;> rw [hfh] at hp
            · simp at hp
            · rcases hfa : dict_find m.away_team_id d with _ | va <;> rw [hfa] at hp
              · simp at hp
              · simp only [Option.some.injEq] at hp
                subst hp
                rw [tally_match_eq_map, List.map_map]
                exact List.map_congr_left fun e _ => by simp [tally_value]

/-! ## Sorting lemmas (stability of the descending insertion sort) -/

/-- Equal sort keys make the non-strict comparison hold. -/
theorem key_ge_of_key_eq (a b : Standing) (h : standing_key a = standing_key b) :
    key_ge a b := by
  unfold standing_key at h
  rw [Prod.ext_iff] at h
  unfold key_ge
  omega

/-- Filtering one key class through an ordered insertion: the inserted
element lands in front of its own class (every element it passes over has a
strictly greater key) and other classes are untouched. -/
theorem filter_key_orderedInsert (key : Int × Int) (x : Standing) :
    ∀ l : List Standing,
    (List.orderedInsert key_ge x l).filter (fun s => standing_key s == key) =
      if standing_key x = key
        then x :: l.filter (fun s => standing_key s == key)
        else l.filter (fun s => standing_key s == key)
  | [] => by
      by_cases h : standing_key x = key
      · simp [List.orderedInsert, List.filter, h]
      · have hb : (standing_key x == key) = false := by
          simpa using h
        simp [List.orderedInsert, List.filter, h, hb]
  | y :: ys => by
      by_cases hxy : key_ge x y
      · by_cases h : standing_key x = key <;>
          simp [List.orderedInsert, if_pos hxy, List.filter_cons, h]
      · have hrec := filter_key_orderedInsert key x ys
        simp only [List.orderedInsert, if_neg hxy, List.filter_cons]
        by_cases hx : standing_key x = key
        · have hy : ¬ standing_key y = key := fun hy =>
            hxy (key_ge_of_key_eq x y (hx.trans hy.symm))
          simp [hx, hy, hrec, List.filter_cons]
        · simp [hx, hrec, List.filter_cons]

/-- The stable sort permutes only within key classes: filtering any key
class yields the class in its original input order. -/
theorem filter_key_sort_desc (key : Int × Int) :
    ∀ l : List Standing,
    (sort_desc l).filter (fun s => standing_key s == key) =
      l.filter (fun s => standing_key s == key)
  | [] => rfl
  | x :: xs => by
      unfold sort_desc
      rw [List.insertionSort]
      rw [filter_key_orderedInsert key x (xs.insertionSort key_ge)]
      have hrec := filter_key_sort_desc key xs
      unfold sort_desc at hrec
      rw [hrec]
      by_cases h : standing_key x = key <;> simp [h, List.filter_cons]

/-- Inserting an element that compares at least as high as everything in the
list puts it in front. -/
theorem orderedInsert_all_ge (x : Standing) :
    ∀ l : List Standing, (∀ b ∈ l, key_ge x b) →
      List.orderedInsert key_ge x l = x :: l
  | [], _ => rfl
  | y :: ys, h => by simp [List.orderedInsert, if_pos (h y (by simp))]

/-- A list whose elements all compare equal (in particular all zero rows) is
left in input order by the sort. -/
theorem sort_desc_all_ge : ∀ l : List Standing,
    (∀ a ∈ l, ∀ b ∈ l, key_ge a b) → sort_desc l = l
  | [], _ => rfl
  | x :: xs, h => by
      unfold sort_desc
      rw [List.insertionSort]
      have hxs : sort_desc xs = xs := sort_desc_all_ge xs fun a ha b hb =>
        h a (List.mem_cons_of_mem _ ha) b (List.mem_cons_of_mem _ hb)
      unfold sort_desc at hxs
      rw [hxs]
      exact orderedInsert_all_ge x xs fun b hb =>
        h x (by simp) b (List.mem_cons_of_mem _ hb)

/-! ## Sum lemmas (for the conservation laws) -/

/-- Sums distribute over pointwise addition. -/
theorem sum_map_add {α : Type} (l : List α) (f g : α → Int) :
    (l.map fun x => f x + g x).sum = (l.map f).sum + (l.map g).sum := by
  induction l with
  | nil => simp
  | cons a l ih =>
      simp only [List.map_cons, List.sum_cons, ih]
      ring

/-- Summing a single-key indicator counts the key's occurrences. -/
theorem sum_if_key (h0 : String) (c : Int) : ∀ d : StatsDict,
    (d.map fun e => if h0 = e.1 then c else 0).sum =
      c * ((dict_keys d).count h0 : Int)
  | [] => by simp [dict_keys]
  | (k', v) :: rest => by
      have hrec := sum_if_key h0 c rest
      by_cases h : h0 = k'
      · subst h
        simp only [List.map_cons, List.sum_cons, if_pos rfl]
        rw [hrec]
        have hcnt : (dict_keys ((h0, v) :: rest)).count h0 =
            (dict_keys rest).count h0 + 1 := by
          simp [dict_keys, List.count_cons]
        rw [hcnt]
        push_cast
        ring
      · simp only [List.map_cons, List.sum_cons, if_neg h]
        rw [hrec]
        have hcnt : (dict_keys ((k', v) :: rest)).count h0 =
            (dict_keys rest).count h0 := by
          simp [dict_keys, List.count_cons, Ne.symm h]
        rw [hcnt]
        ring

/-- Template: a pointwise tally whose effect on field `f` is a per-key
indicator adds `c1 + c2` to the field's total when home and away each occur
exactly once among the keys. -/
theorem sum_field_tally_template (hid aid : String) (hs aws : Int)
    (f : Standing → Int) (c1 c2 : Int)
    (hF : ∀ k s, f (tally_value hid aid hs aws k s) =
      f s + ((if hid = k then c1 else 0) + (if aid = k then c2 else 0)))
    (d : StatsDict)
    (hh : (dict_keys d).count hid = 1) (ha : (dict_keys d).count aid = 1) :
    sum_field f (tally_match hid aid hs aws d) = sum_field f d + (c1 + c2) := by
  rw [tally_match_eq_map]
  unfold sum_field
  rw [List.map_map]
  show (d.map fun e => f (tally_value hid aid hs aws e.1 e.2)).sum =
    (d.map fun e => f e.2).sum + (c1 + c2)
  have heq : (d.map fun e => f (tally_value hid aid hs aws e.1 e.2)) =
      d.map fun e => f e.2 +
        ((if hid = e.1 then c1 else 0) + (if aid = e.1 then c2 else 0)) :=
    List.map_congr_left fun e _ => hF e.1 e.2
  rw [heq, sum_map_add, sum_map_add, sum_if_key, sum_if_key, hh, ha]
  push_cast
  ring

/-- The five field totals after one tally. -/
theorem tally_match_sums (hid aid : String) (hs aws : Int) (d : StatsDict)
    (hh : (dict_keys d).count hid = 1) (ha : (dict_keys d).count aid = 1) :
    sum_field Standing.points_for (tally_match hid aid hs aws d) =
      sum_field Standing.points_for d + (hs + aws) ∧
    sum_field Standing.points_against (tally_match hid aid hs aws d) =
      sum_field Standing.points_against d + (hs + aws) ∧
    sum_field Standing.played (tally_match hid aid hs aws d) =
      sum_field Standing.played d + 2 ∧
    sum_field Standing.wins (tally_match hid aid hs aws d) =
      sum_field Standing.wins d +
        ((if aws < hs then 1 else 0) + (if hs < aws then 1 else 0)) ∧
    sum_field Standing.losses (tally_match hid aid hs aws d) =
      sum_field Standing.losses d +
        ((if aws < hs then 1 else 0) + (if hs < aws then 1 else 0)) := by
  refine ⟨?_, ?_, ?_, ?_, ?_⟩
  · exact sum_field_tally_template hid aid hs aws Standing.points_for hs aws
      (fun k s => by simp [tally_value]) d hh ha
  · have := sum_field_tally_template hid aid hs aws Standing.points_against aws hs
      (fun k s => by simp [tally_value]) d hh ha
    rw [this]
    ring
  · exact sum_field_tally_template hid aid hs aws Standing.played 1 1
      (fun k s => by simp [tally_value]) d hh ha
  · exact sum_field_tally_template hid aid hs aws Standing.wins
      (if aws < hs then 1 else 0) (if hs < aws then 1 else 0)
      (fun k s => by
        by_cases h1 : hid = k <;> by_cases h2 : aid = k <;>
          simp [tally_value, h1, h2] <;> split_ifs <;> omega) d hh ha
  · have := sum_field_tally_template hid aid hs aws Standing.losses
      (if hs < aws then 1 else 0) (if aws < hs then 1 else 0)
      (fun k s => by
        by_cases h1 : hid = k <;> by_cases h2 : aid = k <;>
          simp [tally_value, h1, h2] <;> split_ifs <;> omega) d hh ha
    rw [this]
    ring

/-- The conservation laws survive the whole fold. -/
theorem process_matches_sums : ∀ (ms : List Match) (d d' : StatsDict),
    process_matches d ms = some d' → (dict_keys d).Nodup →
    sum_field Standing.points_for d' - sum_field Standing.points_against d' =
      sum_field Standing.points_for d - sum_field Standing.points_against d ∧
    sum_field Standing.wins d' - sum_field Standing.losses d' =
      sum_field Standing.wins d - sum_field Standing.losses d ∧
    (2 : Int) ∣ sum_field Standing.played d' - sum_field Standing.played d
  | [], d, d', h, _ => by
      simp [process_matches] at h
      rw [← h]
      exact ⟨rfl, rfl, ⟨0, by ring⟩⟩
  | m :: ms, d, d', h, hnd => by
      unfold process_matches at h
      rcases hp : process_match d m with _ | d1 <;> rw [hp] at h
      · simp at h
      · have hkeys := process_match_keys d d1 m hp
        have hnd1 : (dict_keys d1).Nodup := by rw [hkeys]; exact hnd
        obtain ⟨e1, e2, e3⟩ := process_matches_sums ms d1 d' h hnd1
        unfold process_match at hp
        rcases hh : m.home_score with _ | hs <;> rw [hh] at hp
        · simp at hp
          subst hp
          exact ⟨e1, e2, e3⟩
        · rcases ha : m.away_score with _ | aws <;> rw [ha] at hp
          · simp at hp
            subst hp
            exact ⟨e1, e2, e3⟩
          · rcases hfh : dict_find m.home_team_id d with _ | vh <;> rw [hfh] at hp
            · simp at hp
            · rcases hfa : dict_find m.away_team_id d with _ | va <;> rw [hfa] at hp
              · simp at hp
              · simp only [Option.some.injEq] at hp
                subst hp
                have hmh : m.home_team_id ∈ dict_keys d :=
                  (dict_find_isSome_iff _ d).mp (by rw [hfh]; rfl)
                have hma : m.away_team_id ∈ dict_keys d :=
                  (dict_find_isSome_iff _ d).mp (by rw [hfa]; rfl)
                obtain ⟨t1, t2, t3, t4, t5⟩ := tally_match_sums m.home_team_id
                  m.away_team_id hs aws d
                  (List.count_eq_one_of_mem hnd hmh)
                  (List.count_eq_one_of_mem hnd hma)
                rw [t1, t2] at e1
                rw [t4, t5] at e2
                rw [t3] at e3
                refine ⟨by omega, by omega, ?_⟩
                obtain ⟨c, hc⟩ := e3
                exact ⟨c + 1, by omega⟩

/-! ## Shared standings facts -/

/-- Under the consistency hypothesis, the standings computation succeeds and
returns the sorted values of the processed dict. -/
theorem standings_some (teams : List Team) (ms : List Match)
    (hok : scored_rostered teams ms) :
    ∃ d', process_matches (init_stats teams) ms = some d' ∧
      standings teams ms = some (sort_desc (d'.map Prod.snd)) := by
  obtain ⟨d', hd'⟩ := process_matches_total ms (init_stats teams) fun m hm h1 h2 => by
    rw [mem_dict_keys_init, mem_dict_keys_init]
    exact hok m hm h1 h2
  refine ⟨d', hd', ?_⟩
  unfold standings
  rw [hd']
  rfl

/-- With pairwise-distinct roster ids, the initial dict finds each team's
zero row. -/
theorem dict_find_pairs : ∀ (teams : List Team), (teams.map Team.id).Nodup →
    ∀ t ∈ teams, dict_find t.id (teams.map fun t => (t.id, zero_standing t)) =
      some (zero_standing t)
  | [], _, t, ht => by simp at ht
  | t0 :: ts, hnd, t, ht => by
      have hnd' : (ts.map Team.id).Nodup := (List.nodup_cons.mp (by simpa using hnd)).2
      have ht0 : t0.id ∉ ts.map Team.id := (List.nodup_cons.mp (by simpa using hnd)).1
      rcases List.mem_cons.mp ht with rfl | ht'
      · simp [dict_find]
      · have hne : t.id ≠ t0.id := fun he =>
          ht0 (he ▸ List.mem_map_of_mem Team.id ht')
        simp only [List.map_cons, dict_find, if_neg hne]
        exact dict_find_pairs ts hnd' t ht'

/-! ## C4 — the tally semantics -/

/-- C4: with distinct roster ids and every scored match rostered, the
standings table has one row per rostered team, and team `t`'s row is exactly
the spec-side aggregation over the match list: zero counters, plus — for
each match with both scores present (unscored matches contribute nothing) —
one `played` per side, each side's score added to its own `points_for` and
the opponent's `points_against`, and a win/loss for the strictly
higher/lower scorer (neither on a draw). -/
theorem standings_tally (teams : List Team) (ms : List Match)
    (hnd : (teams.map Team.id).Nodup) (hok : scored_rostered teams ms) :
    ∃ tbl, standings teams ms = some tbl ∧ tbl.length = teams.length ∧
      ∀ t ∈ teams, spec_row t.id t.name ms ∈ tbl := by
  obtain ⟨d', hproc, hst⟩ := standings_some teams ms hok
  refine ⟨_, hst, ?_, ?_⟩
  · have hperm : (sort_desc (d'.map Prod.snd)).Perm (d'.map Prod.snd) :=
      List.perm_insertionSort key_ge _
    rw [hperm.length_eq, List.length_map]
    have hkeys := process_matches_keys ms _ _ hproc
    have hlen : d'.length = (dict_keys d').length := (List.length_map _ _).symm
    rw [hlen, hkeys, init_stats_eq_map teams hnd]
    simp [dict_keys]
  · intro t ht
    have hfind0 : dict_find t.id (init_stats teams) = some (zero_standing t) := by
      rw [init_stats_eq_map teams hnd]
      exact dict_find_pairs teams hnd t ht
    have hfind := dict_find_process_matches ms _ _ hproc t.id _ hfind0
    have hrow : spec_add (zero_standing t) t.id ms = spec_row t.id t.name ms := by
      simp [spec_add, zero_standing, spec_row]
    rw [hrow] at hfind
    exact (List.perm_insertionSort key_ge _).mem_iff.mpr
      (List.mem_map_of_mem Prod.snd (dict_find_mem _ hfind))

/-- Witness for C4: two rostered teams, one scored match 21–15. -/
theorem standings_tally_witness :
    (([wTeam1, wTeam2] : List Team).map Team.id).Nodup ∧
    scored_rostered [wTeam1, wTeam2]
      [{ wMatch0 with home_score := some 21, away_score := some 15 }] ∧
    ∃ tbl, standings [wTeam1, wTeam2]
        [{ wMatch0 with home_score := some 21, away_score := some 15 }] = some tbl ∧
      tbl.length = ([wTeam1, wTeam2] : List Team).length ∧
      ∀ t ∈ ([wTeam1, wTeam2] : List Team),
        spec_row t.id t.name
          [{ wMatch0 with home_score := some 21, away_score := some 15 }] ∈ tbl :=
  ⟨by decide, by decide,
    standings_tally [wTeam1, wTeam2]
      [{ wMatch0 with home_score := some 21, away_score := some 15 }]
      (by decide) (by decide)⟩

/-! ## C5 — ranking policy -/

/-- C5: the returned table is sorted descending by `wins`, then descending
by point differential; rows with identical `wins` and identical differential
appear in original roster order (any key class of the table, read off by
`team_id`, is a sublist of the roster ids, hence in roster order); and with
no played matches the table is exactly the zero rows in roster order. -/
theorem standings_ranking (teams : List Team) (ms : List Match)
    (hnd : (teams.map Team.id).Nodup) (hok : scored_rostered teams ms) :
    ∃ tbl, standings teams ms = some tbl ∧
      tbl.Pairwise (fun s1 s2 => s2.wins < s1.wins ∨
        (s1.wins = s2.wins ∧
          s2.points_for - s2.points_against ≤ s1.points_for - s1.points_against)) ∧
      (∀ key : Int × Int,
        ((tbl.filter fun s => standing_key s == key).map Standing.team_id).Sublist
          (teams.map Team.id)) ∧
      ((∀ m ∈ ms, m.home_score = none ∨ m.away_score = none) →
        tbl = teams.map zero_standing) := by
  obtain ⟨d', hproc, hst⟩ := standings_some teams ms hok
  have hvals : (d'.map Prod.snd).map Standing.team_id = teams.map Team.id := by
    have hids := process_matches_ids ms _ _ hproc
    have h1 := congrArg (List.map fun x : String × String × String => x.2.1) hids
    rw [List.map_map, List.map_map] at h1
    rw [List.map_map]
    calc d'.map (Standing.team_id ∘ Prod.snd)
        = (init_stats teams).map ((fun x : String × String × String => x.2.1) ∘
            fun e => (e.1, e.2.team_id, e.2.team_name)) := h1
      _ = teams.map Team.id := by
          rw [init_stats_eq_map teams hnd, List.map_map]
          rfl
  refine ⟨_, hst, ?_, ?_, ?_⟩
  · exact List.sorted_insertionSort key_ge (d'.map Prod.snd)
  · intro key
    rw [filter_key_sort_desc key (d'.map Prod.snd)]
    exact hvals ▸ ((List.filter_sublist _).map Standing.team_id)
  · intro hms
    have hinit : process_matches (init_stats teams) ms = some (init_stats teams) :=
      process_matches_unscored ms _ hms
    have hd : d' = init_stats teams := by
      rw [hproc] at hinit
      exact Option.some.inj hinit
    subst hd
    rw [init_stats_eq_map teams hnd, List.map_map]
    have hzeros : (teams.map fun t => Prod.snd (t.id, zero_standing t)) =
        teams.map zero_standing := rfl
    rw [hzeros]
    apply sort_desc_all_ge
    intro a ha b hb
    rcases List.mem_map.mp ha with ⟨ta, _, rfl⟩
    rcases List.mem_map.mp hb with ⟨tb, _, rfl⟩
    unfold key_ge zero_standing
    simp

/-- Witness for C5: two rostered teams, no played matches (the zero-state
example of the spec). -/
theorem standings_ranking_witness :
    (([wTeam1, wTeam2] : List Team).map Team.id).Nodup ∧
    scored_rostered [wTeam1, wTeam2] [wMatch0] ∧
    ∃ tbl, standings [wTeam1, wTeam2] [wMatch0] = some tbl ∧
      tbl.Pairwise (fun s1 s2 => s2.wins < s1.wins ∨
        (s1.wins = s2.wins ∧
          s2.points_for - s2.points_against ≤ s1.points_for - s1.points_against)) ∧
      (∀ key : Int × Int,
        ((tbl.filter fun s => standing_key s == key).map Standing.team_id).Sublist
          (([wTeam1, wTeam2] : List Team).map Team.id)) ∧
      ((∀ m ∈ ([wMatch0] : List Match), m.home_score = none ∨ m.away_score = none) →
        tbl = ([wTeam1, wTeam2] : List Team).map zero_standing) :=
  ⟨by decide, by decide,
    standings_ranking [wTeam1, wTeam2] [wMatch0] (by decide) (by decide)⟩

/-! ## C10 — conservation laws -/

/-- C10: when every scored match is rostered, the standings table conserves
totals: points for equal points against, wins equal losses, and the total
`played` count is even (each scored match contributes symmetrically to
exactly two rows — or twice to one row if a match paired a team with
itself). -/
theorem standings_conservation (teams : List Team) (ms : List Match)
    (hok : scored_rostered teams ms) :
    ∃ tbl, standings teams ms = some tbl ∧
      (tbl.map Standing.points_for).sum = (tbl.map Standing.points_against).sum ∧
      (tbl.map Standing.wins).sum = (tbl.map Standing.losses).sum ∧
      (2 : Int) ∣ (tbl.map Standing.played).sum := by
  obtain ⟨d', hproc, hst⟩ := standings_some teams ms hok
  have hperm : (sort_desc (d'.map Prod.snd)).Perm (d'.map Prod.snd) :=
    List.perm_insertionSort key_ge _
  have hsum : ∀ f : Standing → Int,
      ((sort_desc (d'.map Prod.snd)).map f).sum = sum_field f d' := by
    intro f
    rw [(hperm.map f).sum_eq, List.map_map]
    rfl
  have hzero : ∀ f : Standing → Int, (∀ t : Team, f (zero_standing t) = 0) →
      sum_field f (init_stats teams) = 0 := by
    intro f hf
    unfold sum_field
    apply List.sum_eq_zero
    intro x hx
    rcases List.mem_map.mp hx with ⟨e, he, rfl⟩
    rcases mem_init_stats teams [] e (by simpa [init_stats] using he) with h | ⟨t, _, rfl⟩
    · simp at h
    · exact hf t
  obtain ⟨e1, e2, e3⟩ := process_matches_sums ms _ _ hproc (init_stats_keys_nodup teams)
  have hz1 := hzero Standing.points_for fun t => rfl
  have hz2 := hzero Standing.points_against fun t => rfl
  have hz3 := hzero Standing.wins fun t => rfl
  have hz4 := hzero Standing.losses fun t => rfl
  have hz5 := hzero Standing.played fun t => rfl
  refine ⟨_, hst, ?_, ?_, ?_⟩
  · rw [hsum, hsum]
    omega
  · rw [hsum, hsum]
    omega
  · rw [hsum]
    omega

/-- Witness for C10: two rostered teams, one drawn match 7–7 and one
unplayed match. -/
theorem standings_conservation_witness :
    scored_rostered [wTeam1, wTeam2]
      [{ wMatch0 with home_score := some 7, away_score := some 7 }, wMatch0] ∧
    ∃ tbl, standings [wTeam1, wTeam2]
        [{ wMatch0 with home_score := some 7, away_score := some 7 }, wMatch0]
        = some tbl ∧
      (tbl.map Standing.points_for).sum = (tbl.map Standing.points_against).sum ∧
      (tbl.map Standing.wins).sum = (tbl.map Standing.losses).sum ∧
      (2 : Int) ∣ (tbl.map Standing.played).sum :=
  ⟨by decide,
    standings_conservation [wTeam1, wTeam2]
      [{ wMatch0 with home_score := some 7, away_score := some 7 }, wMatch0]
      (by decide)⟩
